import Mathlib

/-!
Verification of the `parthshr370/golang-practice` repository: shallow
embeddings of the Go functions the claims mention, followed by the
theorems settling each claim.
-/

namespace HelloWorld

/-- Constant from `unnamed/part_009`: the default (English) greeting. -/
def englishHelloPrefix : String := "Hey"

/-- Constant from `unnamed/part_009`: the Spanish greeting. -/
def spanishHelloPrefix : String := "Hola"

/-- Constant from `unnamed/part_009`. -/
def spanish : String := "Spanish"

/-- Constant from `unnamed/part_009`. -/
def french : String := "French"

/-- Constant from `unnamed/part_009`: the French greeting. -/
def frenchHelloPrefix : String := "Bonjour"

/-- Embedding of `greetingPrefix` from `unnamed/part_009`: a switch on the
language returning the greeting for Spanish and French and the English
greeting by default. -/
def greetingPrefix (language : String) : String :=
  if language = spanish then spanishHelloPrefix
  else if language = french then frenchHelloPrefix
  else englishHelloPrefix

/-- Embedding of `Mellow` from `unnamed/part_009`: an empty name defaults
to "World", and the result is the language's greeting followed by the
name. -/
def Mellow (name : String) (language : String) : String :=
  let name := if name = "" then "World" else name
  greetingPrefix language ++ name

end HelloWorld

namespace SliceArr

/-- Embedding of `Sum` from `Go with TDD/slice_arr/sum.go`: the sum of the
elements of a slice of ints. -/
def Sum (numbers : List Int) : Int :=
  numbers.foldl (fun sum number => sum + number) 0

/-- The loop of `SumAllTails`: for each argument slice evaluate
`numbers[1:]` and append its `Sum` to `sums`.  On an empty slice the
slice expression `numbers[1:]` panics (`1 > len(numbers)` violates the
slice bound `low <= high`) and the loop aborts, rendered as `none`. -/
def sumAllTailsGo : List (List Int) → List Int → Option (List Int)
  | [], sums => some sums
  | numbers :: rest, sums =>
    match numbers with
    | [] => none
    | _ :: tail => sumAllTailsGo rest (sums ++ [Sum tail])

/-- Embedding of `SumAllTails` from `Go with TDD/slice_arr/sum.go`. -/
def SumAllTails (numberToSum : List (List Int)) : Option (List Int) :=
  sumAllTailsGo numberToSum []

end SliceArr

namespace Llm

/-- Embedding of `llm.Message` from the agent's llm package. -/
structure Message where
  Role : String
  Content : String
deriving DecidableEq, Repr

/-- Errors in the Go style: either a fresh error built from a message, or
an error built with `fmt.Errorf("...%w...", err)`, which wraps an inner
error and keeps it recoverable through `errors.Unwrap`. -/
inductive GoError where
  | msg (s : String)
  | wrap (s : String) (inner : GoError)
deriving DecidableEq, Repr

/-- `errors.Unwrap`: recovers the error wrapped with `%w`, if any. -/
def errUnwrap : GoError → Option GoError
  | .msg _ => none
  | .wrap _ inner => some inner

/-- Embedding of `llm.Client` from `unnamed/part_003` (the `HTTPClient`
field, an opaque pointer to the transport, is dropped). -/
structure Client where
  APIKey : String
  BaseURL : String
deriving DecidableEq, Repr

/-- Embedding of `llm.NewClient`: fixes the OpenRouter base URL. -/
def NewClient (apikey : String) : Client :=
  { APIKey := apikey, BaseURL := "https://openrouter.ai/api/v1" }

/-- Opaque stand-ins for the values the standard library hands back to
`CreateChat`; their content is irrelevant to the claims. -/
structure ChatResponse where
  raw : String
deriving DecidableEq, Repr

/-- An HTTP response as `CreateChat` consumes it: its status code, and the
outcome of running `json.Decode` on its body. -/
structure HTTPResponse where
  statusCode : Int
  decodeResult : Except GoError ChatResponse
deriving Repr

/-- Outcomes of the standard-library operations `CreateChat` performs, in
program order: `json.Marshal req`, `http.NewRequestWithContext`, and
`HTTPClient.Do`.  Each is either an error or a success carrying what the
next step consumes. -/
structure ChatWorld where
  marshalResult : Except GoError String
  newRequestResult : Except GoError Unit
  doResult : Except GoError HTTPResponse
deriving Repr

/-- Embedding of `Client.CreateChat` from `unnamed/part_003`.  The first
component is the Go pair `(*ChatResponse, error)` (`Except` because the
code always pairs a nil pointer with a non-nil error and conversely); the
second counts the HTTP requests issued (`HTTPClient.Do` calls). -/
def CreateChat (w : ChatWorld) : Except GoError ChatResponse × Nat :=
  match w.marshalResult with
  | .error err => (.error (.wrap "Unable to marshal Data here please check again " err), 0)
  | .ok _ =>
    match w.newRequestResult with
    | .error err => (.error (.wrap "Unable to create the request " err), 0)
    | .ok _ =>
      match w.doResult with
      | .error err => (.error (.wrap "Unable to fetch response check your API " err), 1)
      | .ok resp =>
        if resp.statusCode ≠ 200 then
          (.error (.msg ("unexpected status code: " ++ toString resp.statusCode)), 1)
        else
          match resp.decodeResult with
          | .error err => (.error (.wrap "error decoding response: " err), 1)
          | .ok chatResp => (.ok chatResp, 1)

end Llm

namespace AgentPkg

/-- Embedding of the `Agent` struct from `unnamed/part_004` (the `client`
field, an opaque pointer, is dropped to a unit as no claim touches it). -/
structure Agent where
  client : Llm.Client
  SystemPrompt : String
  MaxRetries : Int
  Model : String
  History : List Llm.Message
deriving DecidableEq, Repr

/-- The options the agent package defines: `WithSystemPrompts` and
`WithMaxRetries`, each a closure mutating one field of the agent. -/
inductive AgentOption where
  | withSystemPrompts (prompt : String)
  | withMaxRetries (n : Int)
deriving DecidableEq, Repr

/-- Applying one option closure to the agent, as the closures returned by
`WithSystemPrompts` and `WithMaxRetries` do. -/
def applyOption (a : Agent) : AgentOption → Agent
  | .withSystemPrompts prompt => { a with SystemPrompt := prompt }
  | .withMaxRetries n => { a with MaxRetries := n }

/-- Embedding of `agent.New` from `unnamed/part_004`: build the agent with
default values (`MaxRetries` 1, empty history), apply the options in
order, then seed the history with a system message when a system prompt
is present. -/
def New (client : Llm.Client) (model : String) (opts : List AgentOption) : Agent :=
  let a : Agent :=
    { client := client, SystemPrompt := "", MaxRetries := 1, Model := model, History := [] }
  let a := opts.foldl applyOption a
  if a.SystemPrompt ≠ "" then
    { a with History := a.History ++ [{ Role := "system", Content := a.SystemPrompt }] }
  else a

/-- Spec-side summary: the prompt set by the last `WithSystemPrompts`
option of the list, starting from the default. -/
def lastPrompt : List AgentOption → String → String
  | [], acc => acc
  | .withSystemPrompts prompt :: rest, _ => lastPrompt rest prompt
  | .withMaxRetries _ :: rest, acc => lastPrompt rest acc

/-- Spec-side summary: the retry count set by the last `WithMaxRetries`
option of the list, starting from the default. -/
def lastRetries : List AgentOption → Int → Int
  | [], acc => acc
  | .withSystemPrompts _ :: rest, acc => lastRetries rest acc
  | .withMaxRetries n :: rest, _ => lastRetries rest n

end AgentPkg

namespace Jsonschema

/-- A value inside the `map[string]any` schemas `GenerateSchema` builds:
a plain string (like "object"), a `[]string` (the "required" list), or a
nested `map[string]any` which may be the nil map.  Go maps are modelled
as association lists with Go's assignment semantics (`mapSet`). -/
inductive SVal where
  | str (s : String)
  | strList (l : List String)
  | map (m : Option (List (String × SVal)))
deriving Repr

/-- Go map assignment `m[k] = v`: replaces the binding of `k` when
present, otherwise adds one. -/
def mapSet : List (String × SVal) → String → SVal → List (String × SVal)
  | [], k, v => [(k, v)]
  | (k', v') :: rest, k, v =>
    if k' = k then (k, v) :: rest else (k', v') :: mapSet rest k v

/-- Go map lookup `m[k]` (as an `Option`, `none` for an absent key). -/
def mapGet (m : List (String × SVal)) (k : String) : Option SVal :=
  (m.find? (fun e => e.1 = k)).map (fun e => e.2)

/-- A `reflect.Type` as `GenerateSchema` inspects it, for types whose
reachable type graph is a finite tree.  `int` stands for all the signed
integer kinds `Int, Int8, Int16, Int32, Int64`, `float` for
`Float32, Float64`; `other` stands for every kind the generator does not
handle (slices, maps, unsigned integers, channels, funcs, ...), none of
which the code inspects further.  A struct field is its `json` tag, its
`description` tag, and its type. -/
inductive GoType where
  | string
  | int
  | float
  | bool
  | other
  | ptr (elem : GoType)
  | struct (fields : List (String × String × GoType))
deriving Repr

/-- Whether `l` starts with `sub` (character lists). -/
def startsWith : List Char → List Char → Bool
  | _, [] => true
  | [], _ :: _ => false
  | a :: as, b :: bs => a = b && startsWith as bs

/-- Whether `sub` occurs inside `l` (character lists). -/
def hasSubstr (l sub : List Char) : Bool :=
  startsWith l sub ||
    match l with
    | [] => false
    | _ :: rest => hasSubstr rest sub

/-- `strings.Contains s sub`. -/
def strContains (s sub : String) : Bool := hasSubstr s.toList sub.toList

/-- The characters before the first comma (the whole list when there is
no comma). -/
def takeUntilComma : List Char → List Char
  | [] => []
  | c :: rest => if c = ',' then [] else c :: takeUntilComma rest

/-- `strings.Split(jsonTag, ",")[0]`: the tag name before any comma.
When the tag has no comma this is the whole tag, so it also covers the
branch of the code that keeps `name := jsonTag` unchanged. -/
def tagName (jsonTag : String) : String := String.mk (takeUntilComma jsonTag.toList)

/-- The code's required test: a tag with a comma is required when it does
not contain "omitempty"; a tag without a comma is always required. -/
def isRequiredTag (jsonTag : String) : Bool :=
  if strContains jsonTag "," then !(strContains jsonTag "omitempty") else true

/-- `fieldSchema["description"] = desc` guarded by `desc != ""`: Go
panics ("assignment to entry in nil map") when `fieldSchema` is the nil
map, which the embedding renders as an `Except.error`. -/
def attachDescription (fieldSchema : Option (List (String × SVal))) (desc : String) :
    Except String (Option (List (String × SVal))) :=
  if desc ≠ "" then
    match fieldSchema with
    | none => .error "assignment to entry in nil map"
    | some m => .ok (some (mapSet m "description" (SVal.str desc)))
  else .ok fieldSchema

mutual

/-- Embedding of `jsonschema.GenerateSchema` from
`openai_and_agents/my_agent/tools/jsonschema/schema.go`.  The Go function
first dereferences a pointer once, then switches on the kind: the four
primitive kinds return a one-entry schema, a struct folds over its fields
(`genFields`), and every other kind (including a pointer still left after
the single dereference) returns the nil map (`none`).  `Except.error`
models the run-time panic on a nil-map assignment. -/
def GenerateSchema : GoType → Except String (Option (List (String × SVal)))
  | .ptr .string | .string => .ok (some [("type", SVal.str "string")])
  | .ptr .int | .int => .ok (some [("type", SVal.str "integer")])
  | .ptr .float | .float => .ok (some [("type", SVal.str "number")])
  | .ptr .bool | .bool => .ok (some [("type", SVal.str "boolean")])
  | .ptr (.struct fields) | .struct fields =>
    (match genFields fields [] [] with
     | .error e => .error e
     | .ok (properties, required) =>
       .ok (some [("type", SVal.str "object"),
                  ("properties", SVal.map (some properties)),
                  ("required", SVal.strList required)]))
  | _ => .ok none

/-- The field loop of `GenerateSchema`: skip fields whose `json` tag is
empty or "-"; append the name to `required` according to
`isRequiredTag`; recursively generate the field schema; attach the
`description` tag when non-empty; and assign the result into the
`properties` map. -/
def genFields : List (String × String × GoType) → List (String × SVal) → List String →
    Except String (List (String × SVal) × List String)
  | [], properties, required => .ok (properties, required)
  | (jsonTag, descTag, type) :: rest, properties, required =>
    if jsonTag = "" ∨ jsonTag = "-" then genFields rest properties required
    else
      let name := tagName jsonTag
      let required := if isRequiredTag jsonTag then required ++ [name] else required
      match GenerateSchema type with
      | .error e => .error e
      | .ok fieldSchema =>
        match attachDescription fieldSchema descTag with
        | .error e => .error e
        | .ok fieldSchema => genFields rest (mapSet properties name (SVal.map fieldSchema)) required

end

/-- The single pointer dereference `if t.Kind() == reflect.Ptr { t = t.Elem() }`. -/
def deref1 : GoType → GoType
  | .ptr elem => elem
  | t => t

/-- The kinds the generator's switch and struct branch handle. -/
def isHandledKind : GoType → Bool
  | .string | .int | .float | .bool | .struct _ => true
  | _ => false

/-- Spec-side summary: the tag names of the fields that carry a non-empty
json tag other than "-", in field order. -/
def validNames : List (String × String × GoType) → List String
  | [] => []
  | (jsonTag, _, _) :: rest =>
    if jsonTag = "" ∨ jsonTag = "-" then validNames rest
    else tagName jsonTag :: validNames rest

/-- Spec-side summary of the code's required list: the names of the
tagged fields whose tag passes `isRequiredTag`, in field order. -/
def codeRequired : List (String × String × GoType) → List String
  | [] => []
  | (jsonTag, _, _) :: rest =>
    if jsonTag = "" ∨ jsonTag = "-" then codeRequired rest
    else if isRequiredTag jsonTag then tagName jsonTag :: codeRequired rest
    else codeRequired rest

/-- The claim's required list, taken from the spec's words: the names of
the tagged fields whose json tag does not contain "omitempty". -/
def claimRequired : List (String × String × GoType) → List String
  | [] => []
  | (jsonTag, _, _) :: rest =>
    if jsonTag = "" ∨ jsonTag = "-" then claimRequired rest
    else if strContains jsonTag "omitempty" then claimRequired rest
    else tagName jsonTag :: claimRequired rest

end Jsonschema

namespace JsonschemaGraph

open Jsonschema

/-- A `reflect.Type` descriptor in a finite graph of types: the same
kinds as `Jsonschema.GoType`, but a pointer's element type and a struct
field's type are indices into an environment list, so that cyclic types
(a struct reaching itself through a pointer field) are representable. -/
inductive TypeDesc where
  | string
  | int
  | float
  | bool
  | other
  | ptr (target : Nat)
  | struct (fields : List (String × String × Nat))
deriving Repr, DecidableEq

/-- A finite environment of type descriptors.  An index outside the list
behaves as an unhandled kind. -/
abbrev TypeEnv : Type := List TypeDesc

/-- The descriptor of type index `t`. -/
def lookupDesc (env : TypeEnv) (t : Nat) : TypeDesc := List.getD env t .other

/-- The single pointer dereference, on indices: `t.Elem()` when the kind
of `t` is `Ptr`, otherwise `t` itself. -/
def derefId (env : TypeEnv) (t : Nat) : Nat :=
  match lookupDesc env t with
  | .ptr target => target
  | _ => t

/-- The field loop of the graph version of `GenerateSchema`: identical to
`Jsonschema.genFields` except that the recursive call on the field's type
is the function argument `recurse` (the generator at the remaining
fuel), and running out of fuel yields `none`. -/
def genFieldsF (recurse : Nat → Option (Except String (Option (List (String × SVal))))) :
    List (String × String × Nat) → List (String × SVal) → List String →
    Option (Except String (List (String × SVal) × List String))
  | [], properties, required => some (.ok (properties, required))
  | (jsonTag, descTag, tid) :: rest, properties, required =>
    if jsonTag = "" ∨ jsonTag = "-" then genFieldsF recurse rest properties required
    else
      let name := tagName jsonTag
      let required := if isRequiredTag jsonTag then required ++ [name] else required
      match recurse tid with
      | none => none
      | some (.error e) => some (.error e)
      | some (.ok fieldSchema) =>
        match attachDescription fieldSchema descTag with
        | .error e => some (.error e)
        | .ok fieldSchema =>
          genFieldsF recurse rest (mapSet properties name (SVal.map fieldSchema)) required

/-- The graph version of `GenerateSchema`: the same code as
`Jsonschema.GenerateSchema`, but over type indices into `env` and
instrumented with fuel that decreases at every recursive call, so that
`none` at every fuel witnesses non-termination while `some` at some fuel
witnesses termination (with the same result as the Go function). -/
def genSchemaF (env : TypeEnv) : Nat → Nat → Option (Except String (Option (List (String × SVal))))
  | 0, _ => none
  | fuel + 1, t =>
    match lookupDesc env (derefId env t) with
    | .string => some (.ok (some [("type", SVal.str "string")]))
    | .int => some (.ok (some [("type", SVal.str "integer")]))
    | .float => some (.ok (some [("type", SVal.str "number")]))
    | .bool => some (.ok (some [("type", SVal.str "boolean")]))
    | .struct fields =>
      (match genFieldsF (genSchemaF env fuel) fields [] [] with
       | none => none
       | some (.error e) => some (.error e)
       | some (.ok (properties, required)) =>
         some (.ok (some [("type", SVal.str "object"),
                          ("properties", SVal.map (some properties)),
                          ("required", SVal.strList required)])))
    | _ => some (.ok none)

/-- The type indices `GenerateSchema` recurses into from `t`: the field
types of the struct obtained after the single dereference (supersets the
actual recursion, which also skips untagged fields). -/
def fieldTypeIds : TypeDesc → List Nat
  | .struct fields => fields.map (fun f => f.2.2)
  | _ => []

/-- One recursion step of the generator, as a graph edge on type
indices. -/
def Edge (env : TypeEnv) (t u : Nat) : Prop :=
  u ∈ fieldTypeIds (lookupDesc env (derefId env t))

/-- The claim's acyclicity hypothesis: no type reachable from `t` lies on
a cycle of the recursion graph. -/
def AcyclicFrom (env : TypeEnv) (t : Nat) : Prop :=
  ∀ u, Relation.ReflTransGen (Edge env) t u → ¬ Relation.TransGen (Edge env) u u

/-- The self-referential type of the claim: index 0 is a struct whose
only field (tagged "next") has the type at index 1, a pointer back to
index 0 — the Go type `type Node struct { Next *Node json-tag "next" }`. -/
def selfRefEnv : TypeEnv :=
  [TypeDesc.struct [("next", "", 1)], TypeDesc.ptr 0]

end JsonschemaGraph

namespace SelectRacer

/-- Embedding of `Racer` from `Go with TDD/select/racer.go`.  The Go
select races three channels: the first two cases are BOTH `<-ping(a)`
(the source never pings `b`), each returning `(a, nil)`; the third is
`time.After(timout)`, returning `""` and a timeout error naming both
URLs.  `responseTime url` is the instant `http.Get(url)` completes
(`ping` closes its channel then, whether or not the fetch erred); the
select takes whichever case is ready first, and when the two identical
channel cases tie the result is `(a, nil)` either way. -/
def Racer (a b : String) (timout : Nat) (responseTime : String → Nat) :
    String × Option String :=
  if responseTime a < timout then (a, none)
  else ("", some ("timed out waiting for " ++ a ++ " and " ++ b))

end SelectRacer

/-! ## Helper lemmas -/

theorem sumAllTailsGo_all_nonempty (ls : List (List Int)) :
    ∀ sums, (∀ l ∈ ls, l ≠ []) →
      SliceArr.sumAllTailsGo ls sums = some (sums ++ ls.map (fun l => SliceArr.Sum l.tail)) := by
  induction ls with
  | nil => intro sums _; simp [SliceArr.sumAllTailsGo]
  | cons numbers rest ih =>
    intro sums h
    match numbers, h numbers (List.mem_cons_self _ _) with
    | a :: tail, _ =>
      have := ih (sums ++ [SliceArr.Sum tail]) (fun l hl => h l (List.mem_cons_of_mem _ hl))
      simp [SliceArr.sumAllTailsGo, this]

theorem sumAllTailsGo_empty_mem (ls : List (List Int)) :
    ∀ sums, (∃ l ∈ ls, l = []) → SliceArr.sumAllTailsGo ls sums = none := by
  induction ls with
  | nil => intro sums h; simp at h
  | cons numbers rest ih =>
    intro sums h
    rcases h with ⟨l, hl, hempty⟩
    rcases List.mem_cons.mp hl with heq | hmem
    · subst heq; subst hempty; simp [SliceArr.sumAllTailsGo]
    · match numbers with
      | [] => simp [SliceArr.sumAllTailsGo]
      | a :: tail =>
        simp [SliceArr.sumAllTailsGo, ih (sums ++ [SliceArr.Sum tail]) ⟨l, hmem, hempty⟩]

theorem foldl_applyOption_fields (opts : List AgentPkg.AgentOption) :
    ∀ a : AgentPkg.Agent,
      (opts.foldl AgentPkg.applyOption a).History = a.History ∧
      (opts.foldl AgentPkg.applyOption a).SystemPrompt = AgentPkg.lastPrompt opts a.SystemPrompt ∧
      (opts.foldl AgentPkg.applyOption a).MaxRetries = AgentPkg.lastRetries opts a.MaxRetries := by
  induction opts with
  | nil => intro a; simp [AgentPkg.lastPrompt, AgentPkg.lastRetries]
  | cons o rest ih =>
    intro a
    cases o with
    | withSystemPrompts prompt =>
      simpa [AgentPkg.applyOption, AgentPkg.lastPrompt, AgentPkg.lastRetries] using
        ih { a with SystemPrompt := prompt }
    | withMaxRetries n =>
      simpa [AgentPkg.applyOption, AgentPkg.lastPrompt, AgentPkg.lastRetries] using
        ih { a with MaxRetries := n }

theorem lastRetries_no_override (opts : List AgentPkg.AgentOption) :
    ∀ acc, (∀ n, AgentPkg.AgentOption.withMaxRetries n ∉ opts) →
      AgentPkg.lastRetries opts acc = acc := by
  induction opts with
  | nil => intro acc _; rfl
  | cons o rest ih =>
    intro acc h
    cases o with
    | withSystemPrompts prompt =>
      exact ih acc (fun n hn => h n (List.mem_cons_of_mem _ hn))
    | withMaxRetries n => exact absurd (List.mem_cons_self _ _) (h n)

theorem mapGet_nil (nm : String) : Jsonschema.mapGet [] nm = none := rfl

theorem mapGet_cons (k : String) (v : Jsonschema.SVal) (rest : List (String × Jsonschema.SVal))
    (nm : String) :
    Jsonschema.mapGet ((k, v) :: rest) nm =
      if k = nm then some v else Jsonschema.mapGet rest nm := by
  by_cases h : k = nm <;> simp [Jsonschema.mapGet, List.find?, h]

theorem mapGet_mapSet_isSome (m : List (String × Jsonschema.SVal)) (k : String)
    (v : Jsonschema.SVal) (nm : String) :
    (Jsonschema.mapGet (Jsonschema.mapSet m k v) nm).isSome ↔
      nm = k ∨ (Jsonschema.mapGet m nm).isSome := by
  induction m with
  | nil =>
    by_cases h : k = nm <;>
      simp [Jsonschema.mapSet, mapGet_cons, mapGet_nil, h, eq_comm]
  | cons hd rest ih =>
    rcases hd with ⟨k', v'⟩
    by_cases hk : k' = k
    · subst hk
      by_cases h : k' = nm
      · simp [Jsonschema.mapSet, mapGet_cons, h]
      · simp [Jsonschema.mapSet, mapGet_cons, h]
        exact fun hnm => absurd hnm.symm h
    · by_cases h : k' = nm
      · subst h
        simp [Jsonschema.mapSet, hk, mapGet_cons]
      · simp [Jsonschema.mapSet, hk, mapGet_cons, h, ih]

theorem genFields_ok (fields : List (String × String × Jsonschema.GoType)) :
    ∀ props req out, Jsonschema.genFields fields props req = .ok out →
      out.2 = req ++ Jsonschema.codeRequired fields ∧
      (∀ nm, (Jsonschema.mapGet out.1 nm).isSome ↔
        ((Jsonschema.mapGet props nm).isSome ∨ nm ∈ Jsonschema.validNames fields)) := by
  induction fields with
  | nil =>
    intro props req out h
    cases h
    simp [Jsonschema.codeRequired, Jsonschema.validNames]
  | cons field rest ih =>
    rcases field with ⟨jsonTag, descTag, type⟩
    intro props req out h
    rw [Jsonschema.genFields] at h
    by_cases htag : jsonTag = "" ∨ jsonTag = "-"
    · rw [if_pos htag] at h
      obtain ⟨h1, h2⟩ := ih props req out h
      refine ⟨by simpa [Jsonschema.codeRequired, htag] using h1, fun nm => ?_⟩
      simpa [Jsonschema.validNames, htag] using h2 nm
    · rw [if_neg htag] at h
      cases hG : Jsonschema.GenerateSchema type with
      | error e => rw [hG] at h; exact absurd h (by simp)
      | ok fieldSchema =>
        rw [hG] at h
        dsimp only [] at h
        cases hA : Jsonschema.attachDescription fieldSchema descTag with
        | error e => rw [hA] at h; exact absurd h (by simp)
        | ok fs' =>
          rw [hA] at h
          dsimp only [] at h
          obtain ⟨h1, h2⟩ := ih _ _ out h
          constructor
          · rw [h1]
            by_cases hreq : Jsonschema.isRequiredTag jsonTag <;>
              simp [Jsonschema.codeRequired, htag, hreq]
          · intro nm
            rw [h2 nm, mapGet_mapSet_isSome]
            simp [Jsonschema.validNames, htag]
            tauto

/-! ## Claim theorems -/

/-- Claim C6: `Mellow("", "English")` returns "HeyWorld"; an empty name
defaults to "World"; a language other than "Spanish" and "French" gets
the prefix "Hey"; the result is the prefix concatenated with the name. -/
theorem mellow_default_greeting :
    HelloWorld.Mellow "" "English" = "HeyWorld" ∧
    (∀ language, language ≠ HelloWorld.spanish → language ≠ HelloWorld.french →
      HelloWorld.greetingPrefix language = "Hey") ∧
    (∀ name language, HelloWorld.Mellow name language =
      HelloWorld.greetingPrefix language ++ (if name = "" then "World" else name)) := by
  refine ⟨rfl, ?_, ?_⟩
  · intro language h1 h2
    simp [HelloWorld.greetingPrefix, h1, h2, HelloWorld.englishHelloPrefix]
  · intro name language; rfl

/-- Closed instance discharging the hypotheses of the C6 theorem at the
concrete language "German". -/
theorem mellow_default_greeting_witness : HelloWorld.greetingPrefix "German" = "Hey" :=
  mellow_default_greeting.2.1 "German" (by decide) (by decide)

/-- Claim C8: `SumAllTails` panics whenever some argument slice is empty
(`numbers[1:]` is out of range), and under the precondition that every
argument slice is non-empty it returns one sum per argument, slice `i`
contributing the sum of its elements except the first. -/
theorem sumAllTails_partial :
    (∀ ls, (∃ l ∈ ls, l = []) → SliceArr.SumAllTails ls = none) ∧
    (∀ ls, (∀ l ∈ ls, l ≠ []) →
      SliceArr.SumAllTails ls = some (ls.map (fun l => SliceArr.Sum l.tail))) := by
  constructor
  · intro ls h; exact sumAllTailsGo_empty_mem ls [] h
  · intro ls h
    simpa [SliceArr.SumAllTails] using sumAllTailsGo_all_nonempty ls [] h

/-- Closed instance discharging the hypotheses of the C8 theorem: one
call with an empty argument slice, one with none. -/
theorem sumAllTails_partial_witness :
    SliceArr.SumAllTails [[3], []] = none ∧
    SliceArr.SumAllTails [[1, 2], [0, 9, 1]] = some [2, 10] := by
  constructor
  · exact sumAllTails_partial.1 [[3], []] ⟨[], by simp⟩
  · exact sumAllTails_partial.2 [[1, 2], [0, 9, 1]] (by decide)

/-- Claim C9: the agent built by `New` keeps `MaxRetries = 1` unless a
`WithMaxRetries` option is in the list, applies the options in order
(the last `WithSystemPrompts`, `WithMaxRetries` of the list win), and
its history is empty when the resulting system prompt is empty and
otherwise is exactly one system message carrying the prompt. -/
theorem new_agent_spec :
    ∀ client model opts,
      (AgentPkg.New client model opts).MaxRetries = AgentPkg.lastRetries opts 1 ∧
      ((∀ n, AgentPkg.AgentOption.withMaxRetries n ∉ opts) →
        (AgentPkg.New client model opts).MaxRetries = 1) ∧
      (AgentPkg.New client model opts).SystemPrompt = AgentPkg.lastPrompt opts "" ∧
      ((AgentPkg.New client model opts).SystemPrompt = "" →
        (AgentPkg.New client model opts).History = []) ∧
      ((AgentPkg.New client model opts).SystemPrompt ≠ "" →
        (AgentPkg.New client model opts).History =
          [{ Role := "system", Content := (AgentPkg.New client model opts).SystemPrompt }]) := by
  intro client model opts
  set a0 : AgentPkg.Agent :=
    { client := client, SystemPrompt := "", MaxRetries := 1, Model := model,
      History := [] } with ha0
  obtain ⟨hHist, hPrompt, hRetries⟩ := foldl_applyOption_fields opts a0
  set A := opts.foldl AgentPkg.applyOption a0 with hA
  by_cases hsp : A.SystemPrompt = ""
  · have hNew : AgentPkg.New client model opts = A := by
      simp [AgentPkg.New, ← hA, hsp]
    rw [hNew]
    exact ⟨hRetries, fun h => hRetries.trans (lastRetries_no_override opts 1 h),
      hPrompt, fun _ => hHist, fun h => absurd hsp h⟩
  · have hNew : AgentPkg.New client model opts =
        { A with History := A.History ++ [{ Role := "system", Content := A.SystemPrompt }] } := by
      simp [AgentPkg.New, ← hA, hsp]
    rw [hNew]
    refine ⟨hRetries, fun h => hRetries.trans (lastRetries_no_override opts 1 h),
      hPrompt, fun h => absurd h hsp, fun _ => ?_⟩
    show A.History ++ _ = _
    rw [hHist]
    rfl

/-- Closed instance discharging the hypotheses of the C9 theorem at a
concrete option list. -/
theorem new_agent_spec_witness :
    (AgentPkg.New (Llm.NewClient "k") "gpt"
      [AgentPkg.AgentOption.withSystemPrompts "be nice"]).MaxRetries = 1 ∧
    (AgentPkg.New (Llm.NewClient "k") "gpt"
      [AgentPkg.AgentOption.withSystemPrompts "be nice"]).History =
      [{ Role := "system", Content := "be nice" }] := by
  obtain ⟨_, h2, h3, _, h5⟩ :=
    new_agent_spec (Llm.NewClient "k") "gpt" [AgentPkg.AgentOption.withSystemPrompts "be nice"]
  exact ⟨h2 (fun n => by simp), h5 (by decide)⟩

/-- Claim C2: when the HTTP round-trip succeeds but the status code is
not 200, `CreateChat` returns a nil response and a non-nil error, and the
result does not depend on the outcome of decoding the body; a decode
failure on a 200 response likewise yields a nil response and a non-nil
error. -/
theorem createChat_non200_and_decode_failure :
    (∀ w resp, w.doResult = .ok resp → resp.statusCode ≠ 200 →
      (∃ e, (Llm.CreateChat w).1 = .error e) ∧
      (∀ d, (Llm.CreateChat { w with doResult := .ok { resp with decodeResult := d } }).1 =
        (Llm.CreateChat w).1)) ∧
    (∀ w resp err, w.doResult = .ok resp → resp.statusCode = 200 →
      resp.decodeResult = .error err → ∃ e, (Llm.CreateChat w).1 = .error e) := by
  constructor
  · intro w resp hdo hstatus
    rcases w with ⟨m, n, d⟩
    cases m with
    | error e => exact ⟨⟨_, rfl⟩, fun _ => rfl⟩
    | ok j =>
      cases n with
      | error e => exact ⟨⟨_, rfl⟩, fun _ => rfl⟩
      | ok u =>
        cases hdo
        exact ⟨⟨.msg ("unexpected status code: " ++ toString resp.statusCode),
            by simp [Llm.CreateChat, hstatus]⟩,
          fun d' => by simp [Llm.CreateChat, hstatus]⟩
  · intro w resp err hdo hstatus hdec
    rcases w with ⟨m, n, d⟩
    cases m with
    | error e => exact ⟨_, rfl⟩
    | ok j =>
      cases n with
      | error e => exact ⟨_, rfl⟩
      | ok u =>
        cases hdo
        exact ⟨.wrap "error decoding response: " err,
          by simp [Llm.CreateChat, hstatus, hdec]⟩

/-- Closed instance discharging the hypotheses of the C2 theorem: one
world answering 500, one answering 200 with an undecodable body. -/
theorem createChat_non200_and_decode_failure_witness :
    (∃ e, (Llm.CreateChat
      ⟨.ok "{}", .ok (), .ok ⟨500, .ok ⟨"r"⟩⟩⟩).1 = .error e) ∧
    (Llm.CreateChat { (⟨.ok "{}", .ok (), .ok ⟨500, .ok ⟨"r"⟩⟩⟩ : Llm.ChatWorld) with
        doResult := .ok { (⟨500, .ok ⟨"r"⟩⟩ : Llm.HTTPResponse) with
          decodeResult := .error (.msg "bad body") } }).1 =
      (Llm.CreateChat ⟨.ok "{}", .ok (), .ok ⟨500, .ok ⟨"r"⟩⟩⟩).1 ∧
    (∃ e, (Llm.CreateChat
      ⟨.ok "{}", .ok (), .ok ⟨200, .error (.msg "invalid json")⟩⟩).1 = .error e) := by
  obtain ⟨h1, h2⟩ :=
    createChat_non200_and_decode_failure.1 ⟨.ok "{}", .ok (), .ok ⟨500, .ok ⟨"r"⟩⟩⟩
      ⟨500, .ok ⟨"r"⟩⟩ rfl (by decide)
  exact ⟨h1, h2 (.error (.msg "bad body")),
    createChat_non200_and_decode_failure.2 ⟨.ok "{}", .ok (), .ok ⟨200, .error (.msg "invalid json")⟩⟩
      ⟨200, .error (.msg "invalid json")⟩ (.msg "invalid json") rfl rfl rfl⟩

/-- Claim C4: each failing underlying operation of `CreateChat` (request
marshal, request construction, HTTP round-trip, body decode) makes
`CreateChat` return an error wrapping the underlying one in the
`fmt.Errorf` `%w` idiom, so `errors.Unwrap` recovers it; the error is
returned to the caller directly. -/
theorem createChat_wraps_underlying_errors :
    ∀ w err,
      (w.marshalResult = .error err →
        (Llm.CreateChat w).1 =
          .error (.wrap "Unable to marshal Data here please check again " err) ∧
        Llm.errUnwrap (.wrap "Unable to marshal Data here please check again " err) =
          some err) ∧
      (∀ j, w.marshalResult = .ok j → w.newRequestResult = .error err →
        (Llm.CreateChat w).1 = .error (.wrap "Unable to create the request " err) ∧
        Llm.errUnwrap (.wrap "Unable to create the request " err) = some err) ∧
      (∀ j, w.marshalResult = .ok j → w.newRequestResult = .ok () → w.doResult = .error err →
        (Llm.CreateChat w).1 = .error (.wrap "Unable to fetch response check your API " err) ∧
        Llm.errUnwrap (.wrap "Unable to fetch response check your API " err) = some err) ∧
      (∀ j resp, w.marshalResult = .ok j → w.newRequestResult = .ok () →
        w.doResult = .ok resp → resp.statusCode = 200 → resp.decodeResult = .error err →
        (Llm.CreateChat w).1 = .error (.wrap "error decoding response: " err) ∧
        Llm.errUnwrap (.wrap "error decoding response: " err) = some err) := by
  intro w err
  rcases w with ⟨m, n, d⟩
  refine ⟨fun hm => ?_, fun j hm hn => ?_, fun j hm hn hd => ?_,
    fun j resp hm hn hd hstatus hdec => ?_⟩
  · cases hm; exact ⟨rfl, rfl⟩
  · cases hm; cases hn; exact ⟨rfl, rfl⟩
  · cases hm; cases hn; cases hd; exact ⟨rfl, rfl⟩
  · cases hm; cases hn; cases hd
    exact ⟨by simp [Llm.CreateChat, hstatus, hdec], rfl⟩

/-- Closed instance discharging the hypotheses of the C4 theorem at a
world whose marshal step fails. -/
theorem createChat_wraps_underlying_errors_witness :
    (Llm.CreateChat ⟨.error (.msg "boom"), .ok (), .ok ⟨200, .ok ⟨"r"⟩⟩⟩).1 =
      .error (.wrap "Unable to marshal Data here please check again " (.msg "boom")) ∧
    Llm.errUnwrap (.wrap "Unable to marshal Data here please check again " (.msg "boom")) =
      some (.msg "boom") :=
  (createChat_wraps_underlying_errors
    ⟨.error (.msg "boom"), .ok (), .ok ⟨200, .ok ⟨"r"⟩⟩⟩ (.msg "boom")).1 rfl

/-- Claim C7: `CreateChat` issues at most one HTTP request per call —
exactly one when marshalling and request construction succeed — and
never a second one after a failure. -/
theorem createChat_at_most_one_request :
    ∀ w, (Llm.CreateChat w).2 ≤ 1 ∧
      (∀ j, w.marshalResult = .ok j → w.newRequestResult = .ok () →
        (Llm.CreateChat w).2 = 1) := by
  intro w
  rcases w with ⟨m, n, d⟩
  constructor
  · cases m with
    | error e => exact Nat.zero_le 1
    | ok j =>
      cases n with
      | error e => exact Nat.zero_le 1
      | ok u =>
        cases d with
        | error e => exact Nat.le_refl 1
        | ok resp =>
          by_cases hstatus : resp.statusCode ≠ 200
          · simp [Llm.CreateChat, hstatus]
          · cases hdec : resp.decodeResult <;> simp [Llm.CreateChat, hstatus, hdec]
  · intro j hm hn
    cases hm; cases hn
    cases d with
    | error e => rfl
    | ok resp =>
      by_cases hstatus : resp.statusCode ≠ 200
      · simp [Llm.CreateChat, hstatus]
      · cases hdec : resp.decodeResult <;> simp [Llm.CreateChat, hstatus, hdec]

/-- Closed instance discharging the hypotheses of the C7 theorem at a
world where both early steps succeed. -/
theorem createChat_at_most_one_request_witness :
    (Llm.CreateChat ⟨.ok "{}", .ok (), .ok ⟨200, .ok ⟨"r"⟩⟩⟩).2 = 1 :=
  (createChat_at_most_one_request ⟨.ok "{}", .ok (), .ok ⟨200, .ok ⟨"r"⟩⟩⟩).2 "{}" rfl rfl

/-- Claim C1 (amended): for every struct type on which `GenerateSchema`
returns normally, the result is a map binding "type" to "object", a
"properties" map with an entry for each field carrying a non-empty json
tag other than "-" (keyed by the tag name before any comma), and a
"required" list holding exactly the names of the tagged fields whose tag
either has no comma or does not contain "omitempty", in field order. -/
theorem generateSchema_struct_spec :
    ∀ fields r, Jsonschema.GenerateSchema (.struct fields) = .ok r →
      ∃ props,
        r = some [("type", Jsonschema.SVal.str "object"),
                  ("properties", Jsonschema.SVal.map (some props)),
                  ("required", Jsonschema.SVal.strList (Jsonschema.codeRequired fields))] ∧
        ∀ nm, (Jsonschema.mapGet props nm).isSome ↔ nm ∈ Jsonschema.validNames fields := by
  intro fields r h
  rw [Jsonschema.GenerateSchema] at h
  cases hGF : Jsonschema.genFields fields [] [] with
  | error e => rw [hGF] at h; exact absurd h (by simp)
  | ok pr =>
    rcases pr with ⟨props, required⟩
    rw [hGF] at h
    dsimp only [] at h
    obtain ⟨h1, h2⟩ := genFields_ok fields [] [] (props, required) hGF
    cases h
    refine ⟨props, ?_, fun nm => ?_⟩
    · have : required = Jsonschema.codeRequired fields := by simpa using h1
      rw [this]
    · simpa [mapGet_nil] using h2 nm

/-- Closed instance discharging the hypothesis of the C1 theorem at a
two-field struct, one field with an omitempty option. -/
theorem generateSchema_struct_spec_witness :
    ∃ props,
      (some [("type", Jsonschema.SVal.str "object"),
             ("properties", Jsonschema.SVal.map (some
               [("city", Jsonschema.SVal.map (some [("type", Jsonschema.SVal.str "string")])),
                ("temp", Jsonschema.SVal.map (some [("type", Jsonschema.SVal.str "integer")]))])),
             ("required", Jsonschema.SVal.strList ["city"])] :
          Option (List (String × Jsonschema.SVal))) =
        some [("type", Jsonschema.SVal.str "object"),
              ("properties", Jsonschema.SVal.map (some props)),
              ("required", Jsonschema.SVal.strList (Jsonschema.codeRequired
                [("city", "", Jsonschema.GoType.string),
                 ("temp,omitempty", "", Jsonschema.GoType.int)]))] ∧
      ∀ nm, (Jsonschema.mapGet props nm).isSome ↔
        nm ∈ Jsonschema.validNames
          [("city", "", Jsonschema.GoType.string),
           ("temp,omitempty", "", Jsonschema.GoType.int)] :=
  generateSchema_struct_spec
    [("city", "", Jsonschema.GoType.string), ("temp,omitempty", "", Jsonschema.GoType.int)]
    (some [("type", Jsonschema.SVal.str "object"),
           ("properties", Jsonschema.SVal.map (some
             [("city", Jsonschema.SVal.map (some [("type", Jsonschema.SVal.str "string")])),
              ("temp", Jsonschema.SVal.map (some [("type", Jsonschema.SVal.str "integer")]))])),
           ("required", Jsonschema.SVal.strList ["city"])])
    rfl

/-- Counterexample to claim C1 as stated: a field tagged `json:"omitempty"`
(no comma) contains "omitempty", so the claim excludes it from the
"required" list, but the code's no-comma branch marks it required. -/
theorem generateSchema_omitempty_tag_cex :
    Jsonschema.GenerateSchema
      (.struct [("omitempty", "", Jsonschema.GoType.string)]) =
      .ok (some [("type", Jsonschema.SVal.str "object"),
                 ("properties", Jsonschema.SVal.map (some
                   [("omitempty", Jsonschema.SVal.map
                     (some [("type", Jsonschema.SVal.str "string")]))])),
                 ("required", Jsonschema.SVal.strList ["omitempty"])]) ∧
    Jsonschema.claimRequired [("omitempty", "", Jsonschema.GoType.string)] = [] ∧
    Jsonschema.SVal.strList ["omitempty"] ≠
      Jsonschema.SVal.strList
        (Jsonschema.claimRequired [("omitempty", "", Jsonschema.GoType.string)]) := by
  refine ⟨rfl, rfl, ?_⟩
  intro h
  rw [show Jsonschema.claimRequired [("omitempty", "", Jsonschema.GoType.string)] = []
    from rfl] at h
  injection h with h'
  exact List.cons_ne_nil _ _ h'

/-- Claim C10 (amended): a type whose kind after one pointer dereference
is none of string, the signed integers, the floats, bool, or struct
yields `nil` from `GenerateSchema`, and a struct field of such a type
with an empty description tag contributes a nil value to the enclosing
properties map (with a non-empty description tag the code instead panics
assigning into the nil map). -/
theorem generateSchema_unhandled_kinds :
    ∀ t, Jsonschema.isHandledKind (Jsonschema.deref1 t) = false →
      Jsonschema.GenerateSchema t = .ok none ∧
      (∀ jsonTag props req, ¬(jsonTag = "" ∨ jsonTag = "-") →
        Jsonschema.genFields [(jsonTag, "", t)] props req =
          .ok (Jsonschema.mapSet props (Jsonschema.tagName jsonTag)
                (Jsonschema.SVal.map none),
               if Jsonschema.isRequiredTag jsonTag then
                 req ++ [Jsonschema.tagName jsonTag] else req)) := by
  intro t ht
  have hgen : Jsonschema.GenerateSchema t = .ok none := by
    cases t with
    | ptr e =>
      cases e <;>
        simp_all [Jsonschema.isHandledKind, Jsonschema.deref1, Jsonschema.GenerateSchema]
    | _ =>
      simp_all [Jsonschema.isHandledKind, Jsonschema.deref1, Jsonschema.GenerateSchema]
  refine ⟨hgen, fun jsonTag props req htag => ?_⟩
  rw [Jsonschema.genFields, if_neg htag, hgen]
  rfl

/-- Closed instance discharging the hypotheses of the C10 theorem at the
pointer-to-pointer type of the claim's example. -/
theorem generateSchema_unhandled_kinds_witness :
    Jsonschema.GenerateSchema (.ptr (.ptr Jsonschema.GoType.string)) = .ok none ∧
    Jsonschema.genFields [("x", "", .ptr (.ptr Jsonschema.GoType.string))] [] [] =
      .ok (Jsonschema.mapSet [] (Jsonschema.tagName "x") (Jsonschema.SVal.map none),
           if Jsonschema.isRequiredTag "x" then [] ++ [Jsonschema.tagName "x"] else []) := by
  obtain ⟨h1, h2⟩ :=
    generateSchema_unhandled_kinds (.ptr (.ptr Jsonschema.GoType.string)) rfl
  exact ⟨h1, h2 "x" [] [] (by simp)⟩

/-- Counterexample to claim C10 as stated: a slice-kinded field that also
carries a description tag does not contribute a nil value to the
properties map — `GenerateSchema` panics assigning the description into
the nil field schema, so no schema map is returned at all. -/
theorem generateSchema_nil_desc_panic_cex :
    Jsonschema.GenerateSchema (.struct [("x", "d", Jsonschema.GoType.other)]) =
      .error "assignment to entry in nil map" ∧
    Jsonschema.GenerateSchema (.struct [("x", "d", Jsonschema.GoType.other)]) ≠
      .ok (some [("type", Jsonschema.SVal.str "object"),
                 ("properties", Jsonschema.SVal.map (some
                   [("x", Jsonschema.SVal.map none)])),
                 ("required", Jsonschema.SVal.strList ["x"])]) := by
  refine ⟨rfl, fun h => ?_⟩
  rw [show Jsonschema.GenerateSchema (.struct [("x", "d", Jsonschema.GoType.other)]) =
      .error "assignment to entry in nil map" from rfl] at h
  exact Except.noConfusion h

/-- Claim C5 (refuted — the select statement reads `ping(a)` in both of
its channel cases, so URL `b` is never fetched): at the failing input
where `b` answers at instant 1 and `a` at instant 10, the race with
timeout 100 returns `a`, and with timeout 5 it times out, even though
the claim promises the winner `b` in both runs. -/
theorem racer_never_pings_b :
    SelectRacer.Racer "http://a" "http://b" 100
      (fun url => if url = "http://b" then 1 else 10) = ("http://a", none) ∧
    SelectRacer.Racer "http://a" "http://b" 5
      (fun url => if url = "http://b" then 1 else 10) =
      ("", some ("timed out waiting for " ++ "http://a" ++ " and " ++ "http://b")) := by
  constructor <;> rfl

/-! ## Termination analysis of the schema generator (graph version) -/

namespace JsonschemaGraph

open Jsonschema

theorem genFieldsF_nil (recurse : Nat → Option (Except String (Option (List (String × SVal)))))
    (props : List (String × SVal)) (req : List String) :
    genFieldsF recurse [] props req = some (.ok (props, req)) := rfl

theorem genFieldsF_cons (recurse : Nat → Option (Except String (Option (List (String × SVal)))))
    (jt dt : String) (tid : Nat) (rest : List (String × String × Nat))
    (props : List (String × SVal)) (req : List String) :
    genFieldsF recurse ((jt, dt, tid) :: rest) props req =
      if jt = "" ∨ jt = "-" then genFieldsF recurse rest props req
      else
        match recurse tid with
        | none => none
        | some (.error e) => some (.error e)
        | some (.ok fieldSchema) =>
          match attachDescription fieldSchema dt with
          | .error e => some (.error e)
          | .ok fieldSchema =>
            genFieldsF recurse rest (mapSet props (tagName jt) (SVal.map fieldSchema))
              (if isRequiredTag jt then req ++ [tagName jt] else req) := rfl

theorem genSchemaF_zero (env : TypeEnv) (t : Nat) : genSchemaF env 0 t = none := rfl

theorem genSchemaF_succ (env : TypeEnv) (fuel t : Nat) :
    genSchemaF env (fuel + 1) t =
      match lookupDesc env (derefId env t) with
      | .string => some (.ok (some [("type", SVal.str "string")]))
      | .int => some (.ok (some [("type", SVal.str "integer")]))
      | .float => some (.ok (some [("type", SVal.str "number")]))
      | .bool => some (.ok (some [("type", SVal.str "boolean")]))
      | .struct fields =>
        (match genFieldsF (genSchemaF env fuel) fields [] [] with
         | none => none
         | some (.error e) => some (.error e)
         | some (.ok (properties, required)) =>
           some (.ok (some [("type", SVal.str "object"),
                            ("properties", SVal.map (some properties)),
                            ("required", SVal.strList required)])))
      | _ => some (.ok none) := rfl

theorem genSchemaF_selfRef_one : ∀ fuel, genSchemaF selfRefEnv fuel 1 = none := by
  intro fuel
  induction fuel with
  | zero => rfl
  | succ f ih =>
    have h1 : lookupDesc selfRefEnv (derefId selfRefEnv 1) =
        TypeDesc.struct [("next", "", 1)] := rfl
    rw [genSchemaF_succ, h1]
    dsimp only []
    rw [genFieldsF_cons, if_neg (by simp), ih]

theorem genSchemaF_selfRef_diverges : ∀ fuel, genSchemaF selfRefEnv fuel 0 = none := by
  intro fuel
  cases fuel with
  | zero => rfl
  | succ f =>
    have h1 : lookupDesc selfRefEnv (derefId selfRefEnv 0) =
        TypeDesc.struct [("next", "", 1)] := rfl
    rw [genSchemaF_succ, h1]
    dsimp only []
    rw [genFieldsF_cons, if_neg (by simp), genSchemaF_selfRef_one f]

theorem genFieldsF_isSome (recurse : Nat → Option (Except String (Option (List (String × SVal)))))
    (fields : List (String × String × Nat)) :
    ∀ props req, (∀ f ∈ fields, (recurse f.2.2).isSome) →
      (genFieldsF recurse fields props req).isSome := by
  induction fields with
  | nil => intro props req _; rfl
  | cons fld rest ih =>
    intro props req h
    rcases fld with ⟨jt, dt, tid⟩
    rw [genFieldsF_cons]
    by_cases htag : jt = "" ∨ jt = "-"
    · rw [if_pos htag]
      exact ih props req (fun f hf => h f (List.mem_cons_of_mem _ hf))
    · rw [if_neg htag]
      obtain ⟨x, hx⟩ := Option.isSome_iff_exists.mp (h ⟨jt, dt, tid⟩ (List.mem_cons_self _ _))
      rw [hx]
      cases x with
      | error e => rfl
      | ok fs =>
        dsimp only []
        cases hA : attachDescription fs dt with
        | error e => rfl
        | ok fs' =>
          exact ih _ _ (fun f hf => h f (List.mem_cons_of_mem _ hf))

theorem genFieldsF_congr (fields : List (String × String × Nat)) :
    ∀ props req
      (r r' : Nat → Option (Except String (Option (List (String × SVal))))),
      (∀ u, (r u).isSome → r' u = r u) →
      (genFieldsF r fields props req).isSome →
      genFieldsF r' fields props req = genFieldsF r fields props req := by
  induction fields with
  | nil => intro props req r r' _ _; rfl
  | cons fld rest ih =>
    intro props req r r' hcong hs
    rcases fld with ⟨jt, dt, tid⟩
    rw [genFieldsF_cons] at hs
    rw [genFieldsF_cons, genFieldsF_cons]
    by_cases htag : jt = "" ∨ jt = "-"
    · simp only [if_pos htag] at hs ⊢
      exact ih props req r r' hcong hs
    · simp only [if_neg htag] at hs ⊢
      cases hr : r tid with
      | none => rw [hr] at hs; exact absurd hs (by simp)
      | some x =>
        have hr' : r' tid = r tid := hcong tid (by rw [hr]; rfl)
        rw [hr] at hs
        rw [hr', hr]
        cases x with
        | error e => rfl
        | ok fs =>
          dsimp only [] at hs ⊢
          cases hA : attachDescription fs dt with
          | error e => rfl
          | ok fs' =>
            rw [hA] at hs
            dsimp only [] at hs ⊢
            exact ih _ _ r r' hcong hs

end JsonschemaGraph

namespace JsonschemaGraph

open Jsonschema

theorem genSchemaF_stable (env : TypeEnv) :
    ∀ fuel, ∀ t, (genSchemaF env fuel t).isSome →
      genSchemaF env (fuel + 1) t = genSchemaF env fuel t := by
  intro fuel
  induction fuel with
  | zero => intro t h; exact absurd h (by simp [genSchemaF_zero])
  | succ f ih =>
    intro t h
    rw [genSchemaF_succ, genSchemaF_succ]
    rw [genSchemaF_succ] at h
    cases hd : lookupDesc env (derefId env t) with
    | struct fields =>
      rw [hd] at h
      dsimp only [] at h ⊢
      have hGF : (genFieldsF (genSchemaF env f) fields [] []).isSome := by
        cases hgf : genFieldsF (genSchemaF env f) fields [] [] with
        | none => rw [hgf] at h; exact absurd h (by simp)
        | some x => rfl
      rw [genFieldsF_congr fields [] [] (genSchemaF env f) (genSchemaF env (f + 1)) ih hGF]
    | string => rfl
    | int => rfl
    | float => rfl
    | bool => rfl
    | other => rfl
    | ptr target => rfl

theorem genSchemaF_mono (env : TypeEnv) {f f' : Nat} (hle : f ≤ f') {t : Nat}
    (hs : (genSchemaF env f t).isSome) : genSchemaF env f' t = genSchemaF env f t := by
  induction hle with
  | refl => rfl
  | @step m hm ih =>
    have hs' : (genSchemaF env m t).isSome := by rw [ih]; exact hs
    rw [genSchemaF_stable env m t hs', ih]

theorem exists_uniform_fuel (env : TypeEnv) (l : List Nat)
    (h : ∀ u ∈ l, ∃ f, (genSchemaF env f u).isSome) :
    ∃ F, ∀ u ∈ l, (genSchemaF env F u).isSome := by
  induction l with
  | nil => exact ⟨0, by simp⟩
  | cons a rest ih =>
    obtain ⟨fa, ha⟩ := h a (List.mem_cons_self _ _)
    obtain ⟨F, hF⟩ := ih (fun u hu => h u (List.mem_cons_of_mem _ hu))
    refine ⟨max fa F, fun u hu => ?_⟩
    rcases List.mem_cons.mp hu with rfl | hu
    · rw [genSchemaF_mono env (Nat.le_max_left fa F) ha]; exact ha
    · rw [genSchemaF_mono env (Nat.le_max_right fa F) (hF u hu)]; exact hF u hu

/-- The finite list of indices that can ever be reached from `t`. -/
def candidates (env : TypeEnv) (t : Nat) : List Nat :=
  t :: env.flatMap fieldTypeIds

theorem lookupDesc_mem_or_other (env : TypeEnv) (i : Nat) :
    lookupDesc env i ∈ env ∨ lookupDesc env i = .other := by
  by_cases hi : i < env.length
  · left
    unfold lookupDesc
    rw [List.getD_eq_getElem env _ hi]
    exact List.getElem_mem _
  · right
    unfold lookupDesc
    exact List.getD_eq_default env _ (Nat.le_of_not_lt hi)

theorem edge_target_mem (env : TypeEnv) (a b : Nat) (h : Edge env a b) :
    b ∈ env.flatMap fieldTypeIds := by
  simp only [Edge] at h
  rcases lookupDesc_mem_or_other env (derefId env a) with hm | ho
  · exact List.mem_flatMap.mpr ⟨_, hm, h⟩
  · rw [ho] at h
    exact absurd h (by simp [fieldTypeIds])

theorem reach_mem_candidates (env : TypeEnv) (t u : Nat)
    (h : Relation.ReflTransGen (Edge env) t u) : u ∈ candidates env t := by
  induction h with
  | refl => exact List.mem_cons_self _ _
  | tail _ he _ => exact List.mem_cons_of_mem _ (edge_target_mem env _ _ he)

end JsonschemaGraph

namespace JsonschemaGraph

open Jsonschema

theorem acyclic_terminates (env : TypeEnv) (t : Nat) (hAc : AcyclicFrom env t) :
    ∃ fuel, (genSchemaF env fuel t).isSome := by
  have hSfin : {u | Relation.ReflTransGen (Edge env) t u}.Finite :=
    (List.finite_toSet (candidates env t)).subset
      (fun u hu => reach_mem_candidates env t u hu)
  have : Finite ↥{u | Relation.ReflTransGen (Edge env) t u} := hSfin.to_subtype
  let r : ↥{u | Relation.ReflTransGen (Edge env) t u} →
      ↥{u | Relation.ReflTransGen (Edge env) t u} → Prop :=
    fun x y => Edge env y.val x.val
  have hirr : ∀ x, ¬ Relation.TransGen r x x := by
    intro x hx
    have h1 : Relation.TransGen (Function.swap (Edge env)) x.val x.val :=
      Relation.TransGen.lift Subtype.val (fun a b hab => hab) hx
    exact hAc x.val x.property (Relation.transGen_swap.mp h1)
  have hwfT : WellFounded (Relation.TransGen r) := by
    have hirr' : IsIrrefl _ (Relation.TransGen r) := ⟨hirr⟩
    exact Finite.wellFounded_of_trans_of_irrefl _
  have hwf : WellFounded r :=
    Subrelation.wf (fun {a b} hab => Relation.TransGen.single hab) hwfT
  have key : ∀ u, Acc r u → ∃ fuel, (genSchemaF env fuel u.val).isSome := by
    intro u hu
    induction hu with
    | intro v hacc ihv =>
      cases hd : lookupDesc env (derefId env v.val) with
      | struct fields =>
        have hfield : ∀ w ∈ fields.map (fun f => f.2.2), ∃ fl, (genSchemaF env fl w).isSome := by
          intro w hw
          have hedge : Edge env v.val w := by
            simp only [Edge, hd]
            simpa [fieldTypeIds] using hw
          have hreach : w ∈ {u | Relation.ReflTransGen (Edge env) t u} :=
            Relation.ReflTransGen.tail v.property hedge
          exact ihv ⟨w, hreach⟩ hedge
        obtain ⟨F, hF⟩ := exists_uniform_fuel env (fields.map (fun f => f.2.2)) hfield
        refine ⟨F + 1, ?_⟩
        rw [genSchemaF_succ, hd]
        dsimp only []
        have hGF : (genFieldsF (genSchemaF env F) fields [] []).isSome :=
          genFieldsF_isSome (genSchemaF env F) fields [] []
            (fun f hf => hF f.2.2 (List.mem_map_of_mem _ hf))
        obtain ⟨x, hx⟩ := Option.isSome_iff_exists.mp hGF
        rw [hx]
        cases x with
        | error e => rfl
        | ok pr => rcases pr with ⟨props, req⟩; rfl
      | string => exact ⟨1, by rw [genSchemaF_succ, hd]; rfl⟩
      | int => exact ⟨1, by rw [genSchemaF_succ, hd]; rfl⟩
      | float => exact ⟨1, by rw [genSchemaF_succ, hd]; rfl⟩
      | bool => exact ⟨1, by rw [genSchemaF_succ, hd]; rfl⟩
      | other => exact ⟨1, by rw [genSchemaF_succ, hd]; rfl⟩
      | ptr target => exact ⟨1, by rw [genSchemaF_succ, hd]; rfl⟩
  exact key ⟨t, Relation.ReflTransGen.refl⟩ (hwf.apply _)

end JsonschemaGraph

/-- Claim C3: the generator is a single recursive function with no cycle
detection — on every type whose reachable field-type graph (a finite
environment of descriptors) is acyclic, the recursion terminates (some
fuel suffices), while on the struct type that reaches itself again
through a pointer field it exhausts every fuel. -/
theorem generateSchema_termination :
    (∀ env t, JsonschemaGraph.AcyclicFrom env t →
      ∃ fuel, (JsonschemaGraph.genSchemaF env fuel t).isSome) ∧
    (∀ fuel, JsonschemaGraph.genSchemaF JsonschemaGraph.selfRefEnv fuel 0 = none) :=
  ⟨JsonschemaGraph.acyclic_terminates, JsonschemaGraph.genSchemaF_selfRef_diverges⟩

/-- Closed instance discharging the hypothesis of the C3 theorem at the
acyclic one-type environment holding a plain string type. -/
theorem generateSchema_termination_witness :
    (∃ fuel, (JsonschemaGraph.genSchemaF [JsonschemaGraph.TypeDesc.string] fuel 0).isSome) ∧
    JsonschemaGraph.genSchemaF JsonschemaGraph.selfRefEnv 5 0 = none := by
  constructor
  · apply generateSchema_termination.1
    intro u _ htg
    have hno : ∀ a b, ¬ JsonschemaGraph.Edge [JsonschemaGraph.TypeDesc.string] a b := by
      intro a b hab
      simp only [JsonschemaGraph.Edge] at hab
      have hfe : JsonschemaGraph.fieldTypeIds
          (JsonschemaGraph.lookupDesc [JsonschemaGraph.TypeDesc.string]
            (JsonschemaGraph.derefId [JsonschemaGraph.TypeDesc.string] a)) = [] := by
        rcases JsonschemaGraph.lookupDesc_mem_or_other [JsonschemaGraph.TypeDesc.string]
            (JsonschemaGraph.derefId [JsonschemaGraph.TypeDesc.string] a) with hm | ho
        · rw [List.mem_singleton.mp hm]; rfl
        · rw [ho]; rfl
      rw [hfe] at hab
      exact absurd hab (by simp)
    cases htg with
    | single h => exact hno _ _ h
    | tail _ h => exact hno _ _ h
  · exact generateSchema_termination.2 5
